import Mathlib

/-!
Verification of the wave-data conversion pipeline
(`scripts/convert-grib-to-geojson.py`) against its specification.

Shallow embedding conventions:
* Python floats are modelled as exact rationals `ℚ`; a float that may be
  NaN (the land/missing sentinel) is modelled as `Option ℚ` with `none`
  standing for NaN.
* `round(x, k)` (Python banker's rounding) is modelled by rounding
  `10^k * x` to the nearest integer with ties to even.
* `int(x)` (Python truncation toward zero) is modelled by `qtrunc`.
* numpy `astype(np.uint8)` on a float is truncation toward zero followed
  by a wrap modulo 256.
-/

/-- Round a rational to the nearest integer, ties to even
(the rounding used by Python's built-in `round`). -/
def roundHalfEven (x : ℚ) : ℤ :=
  let f := ⌊x⌋
  let r := x - (f : ℚ)
  if r < 1/2 then f
  else if r > 1/2 then f + 1
  else if f % 2 = 0 then f else f + 1

/-- Truncation toward zero, the behaviour of Python's `int(...)` on a float. -/
def qtrunc (q : ℚ) : ℤ :=
  if 0 ≤ q then ⌊q⌋ else -⌊-q⌋

/-- Python `round(x, 1)`: round to one decimal place. -/
def r1 (x : ℚ) : ℚ := (roundHalfEven (10 * x) : ℚ) / 10

/-- Python `round(x, 2)`: round to two decimal places (used for coordinates). -/
def r2 (x : ℚ) : ℚ := (roundHalfEven (100 * x) : ℚ) / 100

/-- Function `round1` from the source: round to 1 decimal place, handling NaN
(`None` for NaN input). -/
def round1 (v : Option ℚ) : Option ℚ :=
  match v with
  | none => none
  | some x => some (r1 x)

/-- Function `convert_longitude` from the source: convert longitude from 0-360 to
-180 to 180. -/
def convert_longitude (lon : ℚ) : ℚ :=
  if lon > 180 then lon - 360 else lon

/-- Constant `MIN_SWELL_HEIGHT` configuration constant (0.1 m). -/
def MIN_SWELL_HEIGHT : ℚ := 1/10

/-- Constant `SAMPLE_STEP` configuration constant (every 24 cells = 6 degrees). -/
def SAMPLE_STEP : ℕ := 24

/-- The decoded grids for one forecast hour, as handed to
`convert_grib_file` by the cfgrib boundary: 2D fields indexed
(latIndex, lonIndex), 3D swell-partition fields indexed
(partition, latIndex, lonIndex), and the 1D coordinate axes.
`none` models a NaN (land/missing) cell. -/
structure Grids where
  nlat : ℕ
  nlon : ℕ
  swh : ℕ → ℕ → Option ℚ
  ws : ℕ → ℕ → Option ℚ
  wdir : ℕ → ℕ → Option ℚ
  shww : ℕ → ℕ → Option ℚ
  mpww : ℕ → ℕ → Option ℚ
  wvdir : ℕ → ℕ → Option ℚ
  swdir : ℕ → ℕ → ℕ → Option ℚ
  shts : ℕ → ℕ → ℕ → Option ℚ
  mpts : ℕ → ℕ → ℕ → Option ℚ
  lats : ℕ → ℚ
  lons : ℕ → ℚ

/-- One entry of a feature's `swells` list, as built at source lines
281-285: `height`/`period` are the results of `round1` (so `Option ℚ`),
`direction` is `int(direction)` with fallback 0 on NaN. -/
structure Swell where
  height : Option ℚ
  period : Option ℚ
  direction : ℤ
deriving DecidableEq, Repr

/-- The `wind` object of a feature (source lines 288-291). -/
structure Wind where
  speed : ℚ
  direction : ℤ
deriving DecidableEq, Repr

/-- The optional `windWaves` object of a feature (source lines 294-301). -/
structure WindWave where
  height : Option ℚ
  period : Option ℚ
  direction : Option ℤ
deriving DecidableEq, Repr

/-- One GeoJSON point feature (source lines 303-315). -/
structure Feature where
  lon : ℚ
  lat : ℚ
  waveHeight : Option ℚ
  swells : List Swell
  windWaves : Option WindWave
  wind : Wind
deriving DecidableEq, Repr

/-- The swell component for partition `p` at cell `(i, j)`: `none` when the
partition is skipped (`np.isnan(height) or height < MIN_SWELL_HEIGHT`),
otherwise the record appended to `swells` (source lines 273-285). -/
def swellOf (g : Grids) (i j p : ℕ) : Option Swell :=
  match g.shts p i j with
  | none => none
  | some h =>
    if h < MIN_SWELL_HEIGHT then none
    else
      some { height := round1 (some h)
             period := round1 (g.mpts p i j)
             direction := match g.swdir p i j with
                          | none => 0
                          | some d => qtrunc d }

/-- The body of the sampling loop of `convert_grib_file` (source lines
261-317) for one cell `(lat_idx, lon_idx) = (i, j)`: `none` when the cell
is skipped as land (NaN wave height), otherwise the emitted feature. -/
def sampleCell (g : Grids) (i j : ℕ) : Option Feature :=
  match g.swh i j with
  | none => none
  | some wh =>
    some { lon := r2 (convert_longitude (g.lons j))
           lat := r2 (g.lats i)
           waveHeight := round1 (some wh)
           swells := (List.range 3).filterMap (fun p => swellOf g i j p)
           windWaves :=
             match g.shww i j with
             | none => none
             | some wwh =>
               if wwh > 0 then
                 some { height := round1 (some wwh)
                        period := round1 (g.mpww i j)
                        direction := match g.wvdir i j with
                                     | none => none
                                     | some d => some (qtrunc d) }
               else none
           wind := { speed := match g.ws i j with
                              | none => 0
                              | some v => r1 v
                     direction := match g.wdir i j with
                                  | none => 0
                                  | some d => qtrunc d } }

/-- Python `range(0, n, step)`: the indices `0, step, 2*step, ...` below `n`. -/
def rangeStep (n step : ℕ) : List ℕ :=
  (List.range ((n + step - 1) / step)).map (fun k => k * step)

/-- The feature-sampling part of `convert_grib_file` (source lines
255-317): scan latitude indices then longitude indices at stride `step`,
skipping NaN wave-height cells, and collect the emitted features in scan
order.  (Decoding, PNG generation and file I/O around the loop are
outside the numeric core.) -/
def convert_grib_file (g : Grids) (step : ℕ) : List Feature :=
  (rangeStep g.nlat step).flatMap
    (fun i => (rangeStep g.nlon step).filterMap (fun j => sampleCell g i j))

/-- The 2×2 scenario grid of the spec: wave heights [[1.0, NaN],[3.0, 4.0]],
all other fields NaN everywhere. -/
def gridC1 : Grids where
  nlat := 2
  nlon := 2
  swh := fun i j =>
    if i = 0 ∧ j = 0 then some 1
    else if i = 0 ∧ j = 1 then none
    else if i = 1 ∧ j = 0 then some 3
    else some 4
  ws := fun _ _ => none
  wdir := fun _ _ => none
  shww := fun _ _ => none
  mpww := fun _ _ => none
  wvdir := fun _ _ => none
  swdir := fun _ _ _ => none
  shts := fun _ _ _ => none
  mpts := fun _ _ _ => none
  lats := fun i => -(i : ℚ)
  lons := fun j => (j : ℚ)

/-- C1 counterexample: on the 2×2 grid [[1.0, NaN],[3.0, 4.0]] with stride 1,
the sampler emits 3 features (4 cells, one NaN cell skipped), not the 2 the
claim states. -/
theorem C1_counterexample : (convert_grib_file gridC1 1).length ≠ 2 := by
  simp [convert_grib_file, rangeStep, sampleCell, gridC1, List.range_succ]

/-- C1 (amended): for the 2×2 equirectangular wave-height grid
[[1.0, NaN],[3.0, 4.0]] sampled with stride 1 and swell threshold 0.1, the
Feature Sampler yields exactly 3 features, skipping the one NaN cell, and
each emitted feature's waveHeight equals the source value rounded to 1
decimal place. -/
theorem C1_sampler_scenario_amended :
    (convert_grib_file gridC1 1).length = 3 ∧
    (convert_grib_file gridC1 1).map Feature.waveHeight =
      [round1 (some 1), round1 (some 3), round1 (some 4)] ∧
    (convert_grib_file gridC1 1).map Feature.waveHeight =
      [some 1, some 3, some 4] := by
  refine ⟨?_, ?_, ?_⟩ <;>
    simp [convert_grib_file, rangeStep, sampleCell, gridC1, List.range_succ,
      round1] <;>
    norm_num [r1, roundHalfEven]

/-- C6: longitude normalization maps every raw value in [0,360) to
(-180,180] by subtracting 360 exactly when raw > 180; it is idempotent, and
adding 360 back to a negative result (leaving a non-negative result as is)
recovers the original raw value. -/
theorem C6_convert_longitude_normalization (raw : ℚ) (h0 : 0 ≤ raw)
    (h1 : raw < 360) :
    (-180 < convert_longitude raw ∧ convert_longitude raw ≤ 180) ∧
    convert_longitude (convert_longitude raw) = convert_longitude raw ∧
    (if convert_longitude raw < 0 then convert_longitude raw + 360
     else convert_longitude raw) = raw := by
  unfold convert_longitude
  split_ifs <;>
    exact ⟨⟨by linarith, by linarith⟩, by linarith, by linarith⟩

/-- C6 witness: the normalization facts instantiated at raw = 270. -/
theorem C6_witness :
    (-180 < convert_longitude 270 ∧ convert_longitude 270 ≤ 180) ∧
    convert_longitude (convert_longitude 270) = convert_longitude 270 ∧
    (if convert_longitude 270 < 0 then convert_longitude 270 + 360
     else convert_longitude 270) = 270 :=
  C6_convert_longitude_normalization 270 (by norm_num) (by norm_num)

/-- Every feature produced by `convert_grib_file` comes from `sampleCell`
at some sampled cell. -/
theorem mem_convert_grib_file {g : Grids} {step : ℕ} {f : Feature}
    (hf : f ∈ convert_grib_file g step) :
    ∃ i j, sampleCell g i j = some f := by
  unfold convert_grib_file at hf
  simp only [List.mem_flatMap, List.mem_filterMap] at hf
  obtain ⟨i, _, j, _, hs⟩ := hf
  exact ⟨i, j, hs⟩

/-- If `sampleCell` emits a feature, the wave-height cell is non-NaN and the
feature is exactly the record built by the loop body. -/
theorem sampleCell_eq_some {g : Grids} {i j : ℕ} {f : Feature}
    (hf : sampleCell g i j = some f) :
    ∃ wh, g.swh i j = some wh ∧
      f.waveHeight = round1 (some wh) ∧
      f.swells = (List.range 3).filterMap (fun p => swellOf g i j p) ∧
      f.wind = { speed := match g.ws i j with
                          | none => 0
                          | some v => r1 v
                 direction := match g.wdir i j with
                              | none => 0
                              | some d => qtrunc d } ∧
      f.windWaves = (match g.shww i j with
                     | none => none
                     | some wwh =>
                       if wwh > 0 then
                         some { height := round1 (some wwh)
                                period := round1 (g.mpww i j)
                                direction := match g.wvdir i j with
                                             | none => none
                                             | some d => some (qtrunc d) }
                       else none) := by
  unfold sampleCell at hf
  cases hswh : g.swh i j with
  | none => rw [hswh] at hf; exact absurd hf (by simp)
  | some wh =>
    rw [hswh] at hf
    simp only [Option.some.injEq] at hf
    exact ⟨wh, rfl, by rw [← hf], by rw [← hf], by rw [← hf], by rw [← hf]⟩

/-- A member of an emitted feature's swell list is `swellOf` at some
partition index below 3. -/
theorem mem_swells {g : Grids} {i j : ℕ} {f : Feature} {s : Swell}
    (hf : sampleCell g i j = some f) (hs : s ∈ f.swells) :
    ∃ p, p < 3 ∧ swellOf g i j p = some s := by
  obtain ⟨wh, _, _, hsw, _, _⟩ := sampleCell_eq_some hf
  rw [hsw] at hs
  simp only [List.mem_filterMap, List.mem_range] at hs
  obtain ⟨p, hp, hps⟩ := hs
  exact ⟨p, hp, hps⟩

/-- Lemma: `swellOf` emits a component exactly when the partition height is
non-NaN and at least the threshold; the component is then the record built
at source lines 281-285. -/
theorem swellOf_eq_some (g : Grids) (i j p : ℕ) :
    (∃ s, swellOf g i j p = some s) ↔
      (∃ h, g.shts p i j = some h ∧ MIN_SWELL_HEIGHT ≤ h) := by
  unfold swellOf
  cases hh : g.shts p i j with
  | none => simp
  | some h =>
    by_cases hlt : h < MIN_SWELL_HEIGHT
    · simp [hlt, not_le.mpr hlt]
    · simp [hlt, le_of_not_lt hlt]

/-- C10: every feature the sampler actually emits has a non-null
waveHeight — the NaN cell is skipped before emission, so the
null-producing branch of `round1` is unreachable for the waveHeight of an
emitted feature. -/
theorem C10_waveHeight_never_null (g : Grids) (step : ℕ) (f : Feature)
    (hf : f ∈ convert_grib_file g step) : f.waveHeight ≠ none := by
  obtain ⟨i, j, hs⟩ := mem_convert_grib_file hf
  obtain ⟨wh, _, hwv, _, _, _⟩ := sampleCell_eq_some hs
  rw [hwv]
  simp [round1]

/-- A 1×1 witness grid with one water cell carrying wave height 1 m, wind
2.5 m/s from 0.9°, a wind sea of 1.5 m / 8.75 s / 12.3°, and swell
partitions of heights 0.5 m (kept), 0.05 m (below threshold) and NaN. -/
def gridW : Grids where
  nlat := 1
  nlon := 1
  swh := fun _ _ => some 1
  ws := fun _ _ => some (5/2)
  wdir := fun _ _ => some (9/10)
  shww := fun _ _ => some (3/2)
  mpww := fun _ _ => some (35/4)
  wvdir := fun _ _ => some (123/10)
  swdir := fun p _ _ => if p = 0 then some (45/2) else none
  shts := fun p _ _ => if p = 0 then some (1/2)
                       else if p = 1 then some (1/20) else none
  mpts := fun p _ _ => if p = 0 then some 8 else none
  lats := fun _ => 45
  lons := fun _ => 270

/-- The single feature the sampler emits for `gridW`. -/
def featW : Feature where
  lon := r2 (convert_longitude 270)
  lat := r2 45
  waveHeight := round1 (some 1)
  swells := [{ height := round1 (some (1/2))
               period := round1 (some 8)
               direction := qtrunc (45/2) }]
  windWaves := some { height := round1 (some (3/2))
                      period := round1 (some (35/4))
                      direction := some (qtrunc (123/10)) }
  wind := { speed := r1 (5/2), direction := qtrunc (9/10) }

/-- The sampler on `gridW` emits exactly `featW`. -/
theorem convert_gridW : convert_grib_file gridW 1 = [featW] := by
  norm_num [convert_grib_file, rangeStep, sampleCell, swellOf, gridW, featW,
    List.range_succ, List.filterMap_cons, MIN_SWELL_HEIGHT]

/-- C5: the Feature Sampler emits no feature for a cell whose wave height
is NaN; every emitted feature carries at most 3 swell components, obtained
by filtering partitions p = 0,1,2 in order (never reordered); and a
partition contributes a component exactly when its height is non-NaN and
at least the 0.1 m threshold. -/
theorem C5_swell_partition_filter (g : Grids) (step : ℕ) :
    (∀ i j, g.swh i j = none → sampleCell g i j = none) ∧
    (∀ f ∈ convert_grib_file g step, f.swells.length ≤ 3 ∧
      ∃ i j, sampleCell g i j = some f ∧
        f.swells = (List.range 3).filterMap (fun p => swellOf g i j p)) ∧
    (∀ i j p, (∃ s, swellOf g i j p = some s) ↔
      ∃ h, g.shts p i j = some h ∧ MIN_SWELL_HEIGHT ≤ h) := by
  refine ⟨?_, ?_, ?_⟩
  · intro i j hnone
    unfold sampleCell
    rw [hnone]
  · intro f hf
    obtain ⟨i, j, hs⟩ := mem_convert_grib_file hf
    obtain ⟨wh, _, _, hsw, _, _⟩ := sampleCell_eq_some hs
    refine ⟨?_, i, j, hs, hsw⟩
    rw [hsw]
    calc ((List.range 3).filterMap (fun p => swellOf g i j p)).length
        ≤ (List.range 3).length := List.length_filterMap_le _ _
      _ = 3 := by simp
  · intro i j p
    exact swellOf_eq_some g i j p

/-- C5 witness: the three conjuncts instantiated on concrete grids — the
NaN cell of `gridC1` is skipped, `featW` has at most 3 swells obtained by
the partition filter, and partition 0 of `gridW` passes the threshold
test. -/
theorem C5_witness :
    sampleCell gridC1 0 1 = none ∧
    (featW.swells.length ≤ 3 ∧
      ∃ i j, sampleCell gridW i j = some featW ∧
        featW.swells = (List.range 3).filterMap (fun p => swellOf gridW i j p)) ∧
    ((∃ s, swellOf gridW 0 0 0 = some s) ↔
      ∃ h, gridW.shts 0 0 0 = some h ∧ MIN_SWELL_HEIGHT ≤ h) :=
  ⟨(C5_swell_partition_filter gridC1 1).1 0 1 (by simp [gridC1]),
   (C5_swell_partition_filter gridW 1).2.1 featW (by rw [convert_gridW]; simp),
   (C5_swell_partition_filter gridW 1).2.2 0 0 0⟩

/-- C10 witness: the emitted feature of `gridW` has a non-null waveHeight. -/
theorem C10_witness : featW.waveHeight ≠ none :=
  C10_waveHeight_never_null gridW 1 featW (by rw [convert_gridW]; simp)

/-- Evaluation: `sampleCell` on `gridW` emits exactly `featW`. -/
theorem sampleCell_gridW : sampleCell gridW 0 0 = some featW := by
  norm_num [sampleCell, swellOf, gridW, featW, List.range_succ,
    List.filterMap_cons, MIN_SWELL_HEIGHT]

/-- An emitted swell component comes from a partition whose height passed
the threshold, and is exactly the record of source lines 281-285. -/
theorem swellOf_some_elim {g : Grids} {i j p : ℕ} {s : Swell}
    (hs : swellOf g i j p = some s) :
    ∃ h, g.shts p i j = some h ∧ MIN_SWELL_HEIGHT ≤ h ∧
      s = { height := round1 (some h)
            period := round1 (g.mpts p i j)
            direction := match g.swdir p i j with
                         | none => 0
                         | some d => qtrunc d } := by
  unfold swellOf at hs
  cases hh : g.shts p i j with
  | none => rw [hh] at hs; exact absurd hs (by simp)
  | some h =>
    rw [hh] at hs
    by_cases hlt : h < MIN_SWELL_HEIGHT
    · simp [hlt] at hs
    · simp only [hlt, if_false, Option.some.injEq] at hs
      exact ⟨h, rfl, le_of_not_lt hlt, hs.symm⟩

/-- An emitted wind-wave record comes from a positive non-NaN wind-sea
height, and is exactly the record of source lines 296-301. -/
theorem windWaves_some_elim {g : Grids} {i j : ℕ} {f : Feature}
    (hf : sampleCell g i j = some f) {w : WindWave}
    (hw : f.windWaves = some w) :
    ∃ h, g.shww i j = some h ∧ 0 < h ∧
      w = { height := round1 (some h)
            period := round1 (g.mpww i j)
            direction := match g.wvdir i j with
                         | none => none
                         | some d => some (qtrunc d) } := by
  obtain ⟨wh, _, _, _, _, hww⟩ := sampleCell_eq_some hf
  rw [hww] at hw
  cases hh : g.shww i j with
  | none => rw [hh] at hw; exact absurd hw (by simp)
  | some x =>
    rw [hh] at hw
    by_cases hx : x > 0
    · simp only [hx, if_true, Option.some.injEq] at hw
      exact ⟨x, rfl, hx, hw.symm⟩
    · simp [hx] at hw

/-- C8 counterexample: `gridW` has wind direction 0.9°; the emitted
feature's wind direction is `int(0.9) = 0`, while rounding to the nearest
integer degree would give 1 — directions are truncated, not rounded. -/
theorem C8_counterexample :
    (convert_grib_file gridW 1).map (fun f => f.wind.direction) = [0] ∧
    roundHalfEven (9/10) = 1 := by
  constructor
  · rw [convert_gridW]
    norm_num [featW, qtrunc]
  · norm_num [roundHalfEven]

/-- C8 (amended): in every emitted feature, all float fields (heights,
periods, wind speed, wave height) are rounded to 1 decimal place before
emission, while direction fields (swell direction, wind direction,
wind-wave direction) are truncated toward zero to an integer degree by
`int(...)` (which on non-negative directions is the floor, not the nearest
integer). -/
theorem C8_field_rounding_amended (g : Grids) (i j : ℕ) (f : Feature)
    (hf : sampleCell g i j = some f) :
    f.waveHeight = round1 (g.swh i j) ∧
    (∀ s ∈ f.swells, ∃ p, p < 3 ∧ ∃ h, g.shts p i j = some h ∧
      s.height = round1 (some h) ∧ s.period = round1 (g.mpts p i j) ∧
      s.direction = (match g.swdir p i j with
                     | none => 0
                     | some d => qtrunc d)) ∧
    f.wind.speed = (match g.ws i j with
                    | none => 0
                    | some v => r1 v) ∧
    f.wind.direction = (match g.wdir i j with
                        | none => 0
                        | some d => qtrunc d) ∧
    (∀ w, f.windWaves = some w → ∃ h, g.shww i j = some h ∧ 0 < h ∧
      w.height = round1 (some h) ∧ w.period = round1 (g.mpww i j) ∧
      w.direction = (match g.wvdir i j with
                     | none => none
                     | some d => some (qtrunc d))) ∧
    (∀ d : ℚ, 0 ≤ d → qtrunc d = ⌊d⌋) := by
  obtain ⟨wh, hswh, hwv, _, hwind, _⟩ := sampleCell_eq_some hf
  refine ⟨by rw [hwv, hswh], ?_, by rw [hwind], by rw [hwind], ?_, ?_⟩
  · intro s hs
    obtain ⟨p, hp, hps⟩ := mem_swells hf hs
    obtain ⟨h, hh, _, rfl⟩ := swellOf_some_elim hps
    exact ⟨p, hp, h, hh, rfl, rfl, rfl⟩
  · intro w hw
    obtain ⟨h, hh, hpos, rfl⟩ := windWaves_some_elim hf hw
    exact ⟨h, hh, hpos, rfl, rfl, rfl⟩
  · intro d hd
    unfold qtrunc
    rw [if_pos hd]

/-- C8 witness: the rounding facts instantiated at the concrete cell of
`gridW`, whose wind direction 0.9° is truncated to 0. -/
theorem C8_witness :
    sampleCell gridW 0 0 = some featW ∧
    featW.wind.direction = (match gridW.wdir 0 0 with
                            | none => 0
                            | some d => qtrunc d) :=
  ⟨sampleCell_gridW,
   (C8_field_rounding_amended gridW 0 0 featW sampleCell_gridW).2.2.2.1⟩

/-- Rounding to the nearest integer never drops below 1 on inputs ≥ 1. -/
theorem roundHalfEven_ge_one {x : ℚ} (hx : 1 ≤ x) : 1 ≤ roundHalfEven x := by
  unfold roundHalfEven
  have h1 : (1 : ℤ) ≤ ⌊x⌋ := by
    rw [Int.le_floor]
    exact_mod_cast hx
  dsimp only
  split_ifs <;> omega

/-- A swell height that passed the 0.1 m threshold still satisfies the
threshold after 1-decimal rounding (so emitted heights are positive). -/
theorem r1_min_height {h : ℚ} (hh : MIN_SWELL_HEIGHT ≤ h) :
    MIN_SWELL_HEIGHT ≤ r1 h := by
  unfold MIN_SWELL_HEIGHT at *
  have h1 : (1 : ℤ) ≤ roundHalfEven (10 * h) :=
    roundHalfEven_ge_one (by linarith)
  have h2 : (1 : ℚ) ≤ (roundHalfEven (10 * h) : ℚ) := by exact_mod_cast h1
  unfold r1
  linarith

/-- A 1×1 grid whose only swell partition has height 0.5 m but a NaN
period and a direction of 400.2°. -/
def gridC9 : Grids where
  nlat := 1
  nlon := 1
  swh := fun _ _ => some 1
  ws := fun _ _ => none
  wdir := fun _ _ => none
  shww := fun _ _ => none
  mpww := fun _ _ => none
  wvdir := fun _ _ => none
  swdir := fun p _ _ => if p = 0 then some (2001/5) else none
  shts := fun p _ _ => if p = 0 then some (1/2) else none
  mpts := fun _ _ _ => none
  lats := fun _ => 0
  lons := fun _ => 0

/-- C9 counterexample: on `gridC9` the sampler emits a SwellComponent with
a null period (the source period is NaN and the code never checks it) and
direction 400, which lies outside [0,360) — refuting "period float>0
(never null)" and "direction int in [0,360)". -/
theorem C9_counterexample :
    (convert_grib_file gridC9 1).map Feature.swells =
      [[{ height := some (1/2), period := none, direction := 400 }]] ∧
    ¬((400 : ℤ) < 360) := by
  constructor
  · norm_num [convert_grib_file, rangeStep, sampleCell, swellOf, gridC9,
      List.range_succ, List.filterMap_cons, MIN_SWELL_HEIGHT, round1, r1,
      roundHalfEven, qtrunc]
  · decide

/-- C9 (amended): every SwellComponent emitted by the Feature Sampler has
height equal to the 1-decimal rounding of a source height that passed the
0.1 m threshold (hence its height is ≥ 0.1, so ≥ 0 and never null); its
period is the 1-decimal rounding of the source period and is null exactly
when the source period is NaN (no positivity guarantee); and its direction
is an integer — the source direction truncated toward zero, or 0 when the
source direction is NaN — with no guarantee of lying in [0,360). -/
theorem C9_swell_component_amended (g : Grids) (i j : ℕ) (f : Feature)
    (hf : sampleCell g i j = some f) :
    ∀ s ∈ f.swells, ∃ p, p < 3 ∧ ∃ h, g.shts p i j = some h ∧
      MIN_SWELL_HEIGHT ≤ h ∧
      s.height = some (r1 h) ∧ MIN_SWELL_HEIGHT ≤ r1 h ∧
      s.period = round1 (g.mpts p i j) ∧
      s.direction = (match g.swdir p i j with
                     | none => 0
                     | some d => qtrunc d) := by
  intro s hs
  obtain ⟨p, hp, hps⟩ := mem_swells hf hs
  obtain ⟨h, hh, hmin, rfl⟩ := swellOf_some_elim hps
  exact ⟨p, hp, h, hh, hmin, rfl, r1_min_height hmin, rfl, rfl⟩

/-- C9 witness: the amended component facts instantiated at the single
swell of `featW`. -/
theorem C9_witness :
    sampleCell gridW 0 0 = some featW ∧
    ∃ p, p < 3 ∧ ∃ h, gridW.shts p 0 0 = some h ∧
      MIN_SWELL_HEIGHT ≤ h ∧
      ({ height := round1 (some (1/2))
         period := round1 (some 8)
         direction := qtrunc (45/2) } : Swell).height = some (r1 h) ∧
      MIN_SWELL_HEIGHT ≤ r1 h ∧
      ({ height := round1 (some (1/2))
         period := round1 (some 8)
         direction := qtrunc (45/2) } : Swell).period =
        round1 (gridW.mpts p 0 0) ∧
      ({ height := round1 (some (1/2))
         period := round1 (some 8)
         direction := qtrunc (45/2) } : Swell).direction =
        (match gridW.swdir p 0 0 with
         | none => 0
         | some d => qtrunc d) :=
  ⟨sampleCell_gridW,
   C9_swell_component_amended gridW 0 0 featW sampleCell_gridW
     { height := round1 (some (1/2))
       period := round1 (some 8)
       direction := qtrunc (45/2) } (by simp [featW])⟩

/-- The per-batch summary of `main` (source line 390): counts of
succeeded and failed forecast hours. -/
def batchSummary (total failed : ℕ) : ℕ × ℕ := (total - failed, failed)

/-- The batch-level failure policy of `main` (source lines 414-426): when
there are failed files and the success rate `succeeded / total` is below
0.9, the batch exits with a failure status. -/
def batchFailedOverall (total failed : ℕ) : Bool :=
  if failed = 0 then false
  else if ((total - failed : ℕ) : ℚ) / (total : ℚ) < 9/10 then true
  else false

/-- C7: for every batch, the orchestrator reports the batch as failed
overall exactly when the fraction of failed forecast hours exceeds 10%,
while still reporting per-hour succeeded/failed counts; in particular a
batch of 10 inputs with 2 failures reports succeeded=8, failed=2, and
overall batch status failed. -/
theorem C7_batch_failure_policy (total failed : ℕ) (h0 : 0 < total)
    (hle : failed ≤ total) :
    (batchFailedOverall total failed = true ↔
      (1/10 : ℚ) < (failed : ℚ) / (total : ℚ)) ∧
    batchSummary 10 2 = (8, 2) ∧
    batchFailedOverall 10 2 = true := by
  refine ⟨?_, rfl, by norm_num [batchFailedOverall]⟩
  unfold batchFailedOverall
  have ht : (0 : ℚ) < (total : ℚ) := by exact_mod_cast h0
  by_cases hf : failed = 0
  · subst hf
    norm_num
  · rw [if_neg hf]
    have hcast : ((total - failed : ℕ) : ℚ) = (total : ℚ) - (failed : ℚ) :=
      Nat.cast_sub hle
    rw [hcast]
    split_ifs with hc
    · simp only [true_iff]
      have h2 := (div_lt_iff ht).mp hc
      rw [lt_div_iff ht]
      linarith
    · simp only [Bool.false_eq_true, false_iff, not_lt]
      rw [not_lt] at hc
      have h2 := (le_div_iff ht).mp hc
      rw [div_le_iff ht]
      linarith

/-- C7 witness: the threshold rule instantiated at the 10-input,
2-failure batch. -/
theorem C7_witness :
    (batchFailedOverall 10 2 = true ↔
      (1/10 : ℚ) < ((2 : ℕ) : ℚ) / ((10 : ℕ) : ℚ)) ∧
    batchSummary 10 2 = (8, 2) ∧
    batchFailedOverall 10 2 = true :=
  C7_batch_failure_policy 10 2 (by norm_num) (by norm_num)

/-- An RGBA quadruple (channel values as integers). -/
abbrev RGBA := ℤ × ℤ × ℤ × ℤ

/-- Numpy `np.clip(x, 0, 1)`. -/
def clip01 (x : ℚ) : ℚ := max 0 (min 1 x)

/-- Function `apply_color_lut` (source lines 129-144) for one pixel: a NaN pixel
becomes fully transparent; otherwise the value is normalized to [0,1],
scaled by `lutSize - 1`, truncated to an integer index by
`astype(np.int32)`, and looked up in the LUT. -/
def apply_color_lut (v : Option ℚ) (lutSize : ℕ) (lut : ℕ → RGBA)
    (vmin vmax : ℚ) : RGBA :=
  match v with
  | none => (0, 0, 0, 0)
  | some x =>
    let n := clip01 ((x - vmin) / (vmax - vmin))
    lut (qtrunc (n * ((lutSize : ℚ) - 1))).toNat

/-- Modelled from the claim's words for comparison: the Color Mapper as
the spec states it, with the index computed by rounding `n * (N - 1)` to
the NEAREST integer instead of truncating. -/
def apply_color_lut_claim (v : Option ℚ) (lutSize : ℕ) (lut : ℕ → RGBA)
    (vmin vmax : ℚ) : RGBA :=
  match v with
  | none => (0, 0, 0, 0)
  | some x =>
    let n := clip01 ((x - vmin) / (vmax - vmin))
    lut (⌊n * ((lutSize : ℚ) - 1) + 1/2⌋).toNat

/-- A two-entry LUT with distinct colors. -/
def lutC3 : ℕ → RGBA := fun i =>
  if i = 0 then (0, 0, 0, 255) else (255, 255, 255, 255)

/-- C3 counterexample: for value 0.7 on range [0,1] with a 2-entry LUT,
`n * (N - 1) = 0.7`; the code truncates the index to 0 while the claim's
`round` formula gives index 1 — and the two LUT entries differ. -/
theorem C3_counterexample :
    apply_color_lut (some (7/10)) 2 lutC3 0 1 = (0, 0, 0, 255) ∧
    apply_color_lut_claim (some (7/10)) 2 lutC3 0 1 = (255, 255, 255, 255) ∧
    ((0, 0, 0, 255) : RGBA) ≠ (255, 255, 255, 255) := by
  refine ⟨?_, ?_, by decide⟩ <;>
    norm_num [apply_color_lut, apply_color_lut_claim, clip01, qtrunc, lutC3]

/-- C3 (amended): for every pixel of a reprojected raster, the Color
Mapper outputs RGBA (0,0,0,0) if the value is NaN, and otherwise outputs
LUT[trunc(n·(N−1))] where n = clamp((value−vmin)/(vmax−vmin), 0, 1), the
index being truncated toward zero (the effect of `astype(np.int32)`), not
rounded to nearest; this still entails that value == vmin maps to LUT[0],
value == vmax maps to LUT[N−1], and no computed index ever exceeds the
LUT bounds. -/
theorem C3_color_mapper_amended (lutSize : ℕ) (lut : ℕ → RGBA)
    (vmin vmax : ℚ) (hN : 1 ≤ lutSize) (hv : vmin < vmax) :
    apply_color_lut none lutSize lut vmin vmax = (0, 0, 0, 0) ∧
    (∀ x : ℚ, apply_color_lut (some x) lutSize lut vmin vmax =
      lut (qtrunc (clip01 ((x - vmin) / (vmax - vmin)) *
        ((lutSize : ℚ) - 1))).toNat) ∧
    apply_color_lut (some vmin) lutSize lut vmin vmax = lut 0 ∧
    apply_color_lut (some vmax) lutSize lut vmin vmax = lut (lutSize - 1) ∧
    (∀ x : ℚ, (qtrunc (clip01 ((x - vmin) / (vmax - vmin)) *
      ((lutSize : ℚ) - 1))).toNat < lutSize) := by
  have hsub : (0 : ℚ) < vmax - vmin := by linarith
  have hone : (1 : ℚ) ≤ (lutSize : ℚ) := by exact_mod_cast hN
  refine ⟨rfl, fun x => rfl, ?_, ?_, ?_⟩
  · show lut (qtrunc (clip01 ((vmin - vmin) / (vmax - vmin)) *
      ((lutSize : ℚ) - 1))).toNat = lut 0
    have h0 : clip01 ((vmin - vmin) / (vmax - vmin)) = 0 := by
      norm_num [clip01]
    rw [h0, zero_mul]
    norm_num [qtrunc]
  · show lut (qtrunc (clip01 ((vmax - vmin) / (vmax - vmin)) *
      ((lutSize : ℚ) - 1))).toNat = lut (lutSize - 1)
    have h1 : clip01 ((vmax - vmin) / (vmax - vmin)) = 1 := by
      rw [div_self hsub.ne']
      norm_num [clip01]
    rw [h1, one_mul]
    have h2 : qtrunc ((lutSize : ℚ) - 1) = (lutSize : ℤ) - 1 := by
      unfold qtrunc
      rw [if_pos (by linarith)]
      have : ((lutSize : ℚ) - 1) = (((lutSize : ℤ) - 1 : ℤ) : ℚ) := by
        push_cast
        ring
      rw [this, Int.floor_intCast]
    rw [h2]
    congr 1
    omega
  · intro x
    have hc0 : 0 ≤ clip01 ((x - vmin) / (vmax - vmin)) :=
      le_max_left 0 _
    have hc1 : clip01 ((x - vmin) / (vmax - vmin)) ≤ 1 :=
      max_le (by norm_num) (min_le_left 1 _)
    have hN1 : (0 : ℚ) ≤ (lutSize : ℚ) - 1 := by linarith
    have hprod0 : 0 ≤ clip01 ((x - vmin) / (vmax - vmin)) *
        ((lutSize : ℚ) - 1) := mul_nonneg hc0 hN1
    have hprod1 : clip01 ((x - vmin) / (vmax - vmin)) *
        ((lutSize : ℚ) - 1) ≤ (lutSize : ℚ) - 1 := by
      nlinarith
    have hq : qtrunc (clip01 ((x - vmin) / (vmax - vmin)) *
        ((lutSize : ℚ) - 1)) =
        ⌊clip01 ((x - vmin) / (vmax - vmin)) * ((lutSize : ℚ) - 1)⌋ := by
      unfold qtrunc
      rw [if_pos hprod0]
    have hfl : ⌊clip01 ((x - vmin) / (vmax - vmin)) *
        ((lutSize : ℚ) - 1)⌋ ≤ (lutSize : ℤ) - 1 := by
      have hmono := Int.floor_mono hprod1
      have : (⌊((lutSize : ℚ) - 1)⌋ : ℤ) = (lutSize : ℤ) - 1 := by
        have hcast : ((lutSize : ℚ) - 1) = (((lutSize : ℤ) - 1 : ℤ) : ℚ) := by
          push_cast
          ring
        rw [hcast, Int.floor_intCast]
      omega
    have hfl0 : 0 ≤ ⌊clip01 ((x - vmin) / (vmax - vmin)) *
        ((lutSize : ℚ) - 1)⌋ := Int.floor_nonneg.mpr hprod0
    rw [hq]
    omega

/-- C3 witness: the amended Color Mapper facts instantiated on a 2-entry
LUT over the range [0,1], with the per-value facts evaluated at 0.7. -/
theorem C3_witness :
    (1 ≤ 2) ∧ ((0 : ℚ) < 1) ∧
    apply_color_lut none 2 lutC3 0 1 = (0, 0, 0, 0) ∧
    apply_color_lut (some (7/10)) 2 lutC3 0 1 =
      lutC3 (qtrunc (clip01 ((7/10 - 0) / (1 - 0)) * ((2 : ℚ) - 1))).toNat ∧
    apply_color_lut (some 0) 2 lutC3 0 1 = lutC3 0 ∧
    apply_color_lut (some 1) 2 lutC3 0 1 = lutC3 (2 - 1) ∧
    (qtrunc (clip01 ((7/10 - 0) / (1 - 0)) * ((2 : ℚ) - 1))).toNat < 2 :=
  ⟨by norm_num, by norm_num,
   (C3_color_mapper_amended 2 lutC3 0 1 (by norm_num) (by norm_num)).1,
   (C3_color_mapper_amended 2 lutC3 0 1 (by norm_num) (by norm_num)).2.1 (7/10),
   (C3_color_mapper_amended 2 lutC3 0 1 (by norm_num) (by norm_num)).2.2.1,
   (C3_color_mapper_amended 2 lutC3 0 1 (by norm_num) (by norm_num)).2.2.2.1,
   (C3_color_mapper_amended 2 lutC3 0 1 (by norm_num) (by norm_num)).2.2.2.2 (7/10)⟩

/-- One color-ramp stop `(normalized_position, R, G, B, A)`. -/
structure ColorStop where
  pos : ℚ
  r : ℤ
  g : ℤ
  b : ℤ
  a : ℤ
deriving DecidableEq, Repr

/-- The RGBA channels of a stop (`ramp[i][1:]`). -/
def stopColor (s : ColorStop) : RGBA := (s.r, s.g, s.b, s.a)

/-- Numpy `astype(np.uint8)` on a float channel: truncate toward zero, wrap
modulo 256. -/
def toU8 (q : ℚ) : ℤ := (qtrunc q) % 256

/-- Entry `k` of the interpolated segment between stops `s0` and `s1` with
`n = idx1 - idx0` entries: `t = k/n` (from
`np.linspace(0, 1, n, endpoint=False)`), channels `(1-t)*c0 + t*c1` cast
to uint8 (source lines 115-117). -/
def segEntry (s0 s1 : ColorStop) (n k : ℕ) : RGBA :=
  (toU8 ((1 - (k : ℚ)/n) * s0.r + (k : ℚ)/n * s1.r),
   toU8 ((1 - (k : ℚ)/n) * s0.g + (k : ℚ)/n * s1.g),
   toU8 ((1 - (k : ℚ)/n) * s0.b + (k : ℚ)/n * s1.b),
   toU8 ((1 - (k : ℚ)/n) * s0.a + (k : ℚ)/n * s1.a))

/-- Python `int(pos * (lut_size - 1))`: the integer index bound of a stop
position (source lines 110-111). -/
def idxOf (N : ℕ) (p : ℚ) : ℤ := qtrunc (p * ((N : ℚ) - 1))

/-- One iteration of the segment loop of `build_color_lut` (source lines
107-117), expressed pointwise: writes the half-open index range
`[idx0, idx1)` with the interpolated segment, skipping degenerate
segments (`n <= 0`), and leaves every other index unchanged. -/
def applySeg (N : ℕ) (lut : ℕ → RGBA) (s0 s1 : ColorStop) : ℕ → RGBA :=
  fun i =>
    if idxOf N s1.pos - idxOf N s0.pos ≤ 0 then lut i
    else if idxOf N s0.pos ≤ (i : ℤ) ∧ (i : ℤ) < idxOf N s1.pos then
      segEntry s0 s1 (idxOf N s1.pos - idxOf N s0.pos).toNat
        ((i : ℤ) - idxOf N s0.pos).toNat
    else lut i

/-- Function `build_color_lut` (source lines 104-120): start from a zeroed LUT,
write each consecutive stop pair's interpolated segment, then assign the
final entry (index N-1) the last stop's color directly. -/
def build_color_lut (ramp : List ColorStop) (N : ℕ) : ℕ → RGBA :=
  fun i =>
    if i = N - 1 then
      match ramp.getLast? with
      | some s => stopColor s
      | none => ((ramp.zip ramp.tail).foldl
          (fun lut pr => applySeg N lut pr.1 pr.2) (fun _ => (0, 0, 0, 0))) i
    else ((ramp.zip ramp.tail).foldl
      (fun lut pr => applySeg N lut pr.1 pr.2) (fun _ => (0, 0, 0, 0))) i

/-- Modelled from the claim's words for comparison: segment entries with
all four channels rounded to the NEAREST integer and clamped to [0,255],
as the claim states, instead of the code's uint8 truncation. -/
def segEntryClaim (s0 s1 : ColorStop) (n k : ℕ) : RGBA :=
  (max 0 (min 255 ⌊(1 - (k : ℚ)/n) * s0.r + (k : ℚ)/n * s1.r + 1/2⌋),
   max 0 (min 255 ⌊(1 - (k : ℚ)/n) * s0.g + (k : ℚ)/n * s1.g + 1/2⌋),
   max 0 (min 255 ⌊(1 - (k : ℚ)/n) * s0.b + (k : ℚ)/n * s1.b + 1/2⌋),
   max 0 (min 255 ⌊(1 - (k : ℚ)/n) * s0.a + (k : ℚ)/n * s1.a + 1/2⌋))

/-- A two-stop ramp interpolating channel values 0 → 3. -/
def rampCX : List ColorStop :=
  [{ pos := 0, r := 0, g := 0, b := 0, a := 0 },
   { pos := 1, r := 3, g := 3, b := 3, a := 3 }]

/-- C4 counterexample: for the ramp 0→3 with N = 3, entry 1 interpolates
to 1.5 per channel; the code's `astype(np.uint8)` truncates it to 1,
while the claim's round-to-nearest would give 2. -/
theorem C4_counterexample :
    build_color_lut rampCX 3 1 = (1, 1, 1, 1) ∧
    segEntryClaim { pos := 0, r := 0, g := 0, b := 0, a := 0 }
      { pos := 1, r := 3, g := 3, b := 3, a := 3 } 2 1 = (2, 2, 2, 2) ∧
    ((1, 1, 1, 1) : RGBA) ≠ (2, 2, 2, 2) := by
  refine ⟨?_, ?_, by decide⟩
  · have h2 : (Int.toNat 2 : ℕ) = 2 := rfl
    norm_num [build_color_lut, applySeg, segEntry, idxOf, qtrunc, toU8,
      stopColor, rampCX, h2]
  · norm_num [segEntryClaim]

/-- Monotonicity: `idxOf` is monotone on non-negative stop positions. -/
theorem idxOf_mono {N : ℕ} {p q : ℚ} (hp : 0 ≤ p) (hpq : p ≤ q)
    (hN : 1 ≤ N) : idxOf N p ≤ idxOf N q := by
  unfold idxOf qtrunc
  have hN1 : (0 : ℚ) ≤ (N : ℚ) - 1 := by
    have : (1 : ℚ) ≤ (N : ℚ) := by exact_mod_cast hN
    linarith
  have h1 : (0 : ℚ) ≤ p * ((N : ℚ) - 1) := mul_nonneg hp hN1
  have h2 : (0 : ℚ) ≤ q * ((N : ℚ) - 1) := mul_nonneg (hp.trans hpq) hN1
  rw [if_pos h1, if_pos h2]
  exact Int.floor_mono (mul_le_mul_of_nonneg_right hpq hN1)

/-- Folding segment writes whose start indices all lie beyond `i` leaves
index `i` unchanged. -/
theorem foldl_applySeg_out (N : ℕ) (L : List (ColorStop × ColorStop))
    (lut : ℕ → RGBA) (i : ℕ)
    (hout : ∀ pr ∈ L, (i : ℤ) < idxOf N pr.1.pos) :
    (L.foldl (fun acc pr => applySeg N acc pr.1 pr.2) lut) i = lut i := by
  induction L generalizing lut with
  | nil => rfl
  | cons hd tl ih =>
    rw [List.foldl_cons,
      ih _ (fun pr hpr => hout pr (List.mem_cons_of_mem hd hpr))]
    have hhd := hout hd (List.mem_cons_self hd tl)
    unfold applySeg
    split_ifs with h1 h2
    · rfl
    · exact absurd h2.1 (not_le.mpr hhd)
    · rfl

/-- The fold of segment writes, evaluated at an index inside the `k`-th
segment, returns that segment's interpolated entry provided every later
segment starts at or after this segment's end. -/
theorem foldl_applySeg_eval (N : ℕ) (L : List (ColorStop × ColorStop))
    (lut : ℕ → RGBA) (i k : ℕ) (hk : k < L.length)
    (hi0 : idxOf N (L.get ⟨k, hk⟩).1.pos ≤ (i : ℤ))
    (hi1 : (i : ℤ) < idxOf N (L.get ⟨k, hk⟩).2.pos)
    (hafter : ∀ m (hm : m < L.length), k < m →
      idxOf N (L.get ⟨k, hk⟩).2.pos ≤ idxOf N (L.get ⟨m, hm⟩).1.pos) :
    (L.foldl (fun acc pr => applySeg N acc pr.1 pr.2) lut) i =
      segEntry (L.get ⟨k, hk⟩).1 (L.get ⟨k, hk⟩).2
        (idxOf N (L.get ⟨k, hk⟩).2.pos -
          idxOf N (L.get ⟨k, hk⟩).1.pos).toNat
        ((i : ℤ) - idxOf N (L.get ⟨k, hk⟩).1.pos).toNat := by
  induction L generalizing lut k with
  | nil => exact absurd hk (by simp)
  | cons hd tl ih =>
    cases k with
    | zero =>
      rw [List.foldl_cons]
      have hget : (hd :: tl).get ⟨0, hk⟩ = hd := rfl
      rw [hget] at hi0 hi1 ⊢
      have hlater : ∀ pr ∈ tl, (i : ℤ) < idxOf N pr.1.pos := by
        intro pr hpr
        obtain ⟨m, rfl⟩ := List.mem_iff_get.mp hpr
        have hm1 : (m : ℕ) + 1 < (hd :: tl).length := by
          simpa using Nat.succ_lt_succ m.isLt
        have h := hafter ((m : ℕ) + 1) hm1 (Nat.succ_pos _)
        rw [hget] at h
        exact lt_of_lt_of_le hi1 h
      rw [foldl_applySeg_out N tl _ i hlater]
      unfold applySeg
      rw [if_neg (by omega), if_pos ⟨hi0, hi1⟩]
    | succ k2 =>
      rw [List.foldl_cons]
      have hk2 : k2 < tl.length := by simpa using hk
      have hgets : (hd :: tl).get ⟨k2 + 1, hk⟩ = tl.get ⟨k2, hk2⟩ := rfl
      rw [hgets] at hi0 hi1 ⊢
      refine ih (applySeg N lut hd.1 hd.2) k2 hk2 hi0 hi1 ?_
      intro m hm hkm
      have hm1 : m + 1 < (hd :: tl).length := by simpa using Nat.succ_lt_succ hm
      have h := hafter (m + 1) hm1 (Nat.succ_lt_succ hkm)
      rw [hgets] at h
      exact h

/-- The spec's scenario ramp: [(0, 0,0,0,255), (1, 255,255,255,255)]. -/
def ramp4 : List ColorStop :=
  [{ pos := 0, r := 0, g := 0, b := 0, a := 255 },
   { pos := 1, r := 255, g := 255, b := 255, a := 255 }]

/-- C4 (amended): in LUT construction, for each consecutive stop pair with
idx0 = floor(pos0·(N−1)) and idx1 = floor(pos1·(N−1)), every entry i in
[idx0, idx1) (other than N−1, which is overwritten) is the linear
interpolation of all four channels at fractional position
(i−idx0)/(idx1−idx0) truncated toward zero by the uint8 cast (not rounded
to nearest), and entry N−1 is the last stop's color; for the ramp
[(0, 0,0,0,255), (1, 255,255,255,255)] with N=4 this yields exactly
[(0,0,0,255), (85,85,85,255), (170,170,170,255), (255,255,255,255)]
(here the interpolants are integers, so no rounding is involved). -/
theorem C4_lut_builder_amended (ramp : List ColorStop) (N : ℕ)
    (hN : 1 ≤ N)
    (hmono : List.Pairwise (fun s t => s.pos < t.pos) ramp)
    (hpos : ∀ s ∈ ramp, 0 ≤ s.pos) :
    (∀ (k i : ℕ) (hka : k < ramp.length) (hkb : k + 1 < ramp.length),
      idxOf N (ramp.get ⟨k, hka⟩).pos ≤ (i : ℤ) →
      (i : ℤ) < idxOf N (ramp.get ⟨k + 1, hkb⟩).pos →
      i ≠ N - 1 →
      build_color_lut ramp N i =
        segEntry (ramp.get ⟨k, hka⟩) (ramp.get ⟨k + 1, hkb⟩)
          (idxOf N (ramp.get ⟨k + 1, hkb⟩).pos -
            idxOf N (ramp.get ⟨k, hka⟩).pos).toNat
          ((i : ℤ) - idxOf N (ramp.get ⟨k, hka⟩).pos).toNat) ∧
    (∀ s, ramp.getLast? = some s →
      build_color_lut ramp N (N - 1) = stopColor s) ∧
    [build_color_lut ramp4 4 0, build_color_lut ramp4 4 1,
      build_color_lut ramp4 4 2, build_color_lut ramp4 4 3] =
      [(0, 0, 0, 255), (85, 85, 85, 255), (170, 170, 170, 255),
       (255, 255, 255, 255)] := by
  have hgetL : ∀ (m : ℕ) (hm : m < (ramp.zip ramp.tail).length)
      (hma : m < ramp.length) (hmb : m + 1 < ramp.length),
      (ramp.zip ramp.tail).get ⟨m, hm⟩ =
        (ramp.get ⟨m, hma⟩, ramp.get ⟨m + 1, hmb⟩) := by
    intro m hm hma hmb
    simp [List.get_eq_getElem, List.getElem_zip, List.getElem_tail]
  refine ⟨?_, ?_, ?_⟩
  · intro k i hka hkb hi0 hi1 hiN
    unfold build_color_lut
    rw [if_neg hiN]
    have hkL : k < (ramp.zip ramp.tail).length := by
      simp only [List.length_zip, List.length_tail, lt_min_iff]
      omega
    have heval := foldl_applySeg_eval N (ramp.zip ramp.tail)
      (fun _ => (0, 0, 0, 0)) i k hkL ?_ ?_ ?_
    · rw [heval, hgetL k hkL hka hkb]
    · rw [hgetL k hkL hka hkb]
      exact hi0
    · rw [hgetL k hkL hka hkb]
      exact hi1
    · intro m hm hkm
      have hma : m < ramp.length := by
        simp only [List.length_zip, List.length_tail, lt_min_iff] at hm
        omega
      have hmb : m + 1 < ramp.length := by
        simp only [List.length_zip, List.length_tail, lt_min_iff] at hm
        omega
      rw [hgetL m hm hma hmb, hgetL k hkL hka hkb]
      dsimp only
      rcases eq_or_lt_of_le (Nat.succ_le_of_lt hkm) with heq | hlt
      · have hfin : (⟨k + 1, hkb⟩ : Fin ramp.length) = ⟨m, hma⟩ :=
          Fin.ext heq
        rw [hfin]
      · have hp := List.pairwise_iff_getElem.mp hmono (k + 1) m hkb hma hlt
        have hmem : ramp.get ⟨k + 1, hkb⟩ ∈ ramp := List.get_mem ramp _ hkb
        simp only [List.get_eq_getElem]
        exact idxOf_mono (hpos _ hmem) (le_of_lt hp) hN
  · intro s hs
    unfold build_color_lut
    rw [if_pos rfl, hs]
  · have h3 : (Int.toNat 3 : ℕ) = 3 := rfl
    have h2 : (Int.toNat 2 : ℕ) = 2 := rfl
    norm_num [build_color_lut, applySeg, segEntry, idxOf, qtrunc, toU8,
      stopColor, ramp4, h3, h2]

/-- C4 witness: the amended LUT facts instantiated on the scenario ramp
with N = 4, at interior index 1 of the single segment and at the final
entry 3. -/
theorem C4_witness :
    build_color_lut ramp4 4 1 =
      segEntry (ramp4.get ⟨0, by decide⟩) (ramp4.get ⟨1, by decide⟩)
        (idxOf 4 (ramp4.get ⟨1, by decide⟩).pos -
          idxOf 4 (ramp4.get ⟨0, by decide⟩).pos).toNat
        ((1 : ℤ) - idxOf 4 (ramp4.get ⟨0, by decide⟩).pos).toNat ∧
    build_color_lut ramp4 4 3 =
      stopColor { pos := 1, r := 255, g := 255, b := 255, a := 255 } ∧
    [build_color_lut ramp4 4 0, build_color_lut ramp4 4 1,
      build_color_lut ramp4 4 2, build_color_lut ramp4 4 3] =
      [(0, 0, 0, 255), (85, 85, 85, 255), (170, 170, 170, 255),
       (255, 255, 255, 255)] := by
  have hmain := C4_lut_builder_amended ramp4 4 (by decide)
    (by norm_num [ramp4, List.pairwise_cons])
    (by
      intro s hs
      simp only [ramp4, List.mem_cons, List.mem_singleton] at hs
      rcases hs with rfl | hs
      · norm_num
      · rcases hs with rfl | hs
        · norm_num
        · exact absurd hs (List.not_mem_nil s))
  refine ⟨?_, ?_, hmain.2.2⟩
  · exact hmain.1 0 1 (by decide) (by decide)
      (by norm_num [ramp4, idxOf, qtrunc])
      (by norm_num [ramp4, idxOf, qtrunc]) (by decide)
  · exact hmain.2.1 _ rfl

/-- Grid access with a constant boundary value, the behaviour of
`scipy.ndimage.map_coordinates(..., mode='constant', cval=...)` outside
the frame. -/
def getPix (H W : ℕ) (a : ℕ → ℕ → ℚ) (cval : ℚ) (i j : ℤ) : ℚ :=
  if 0 ≤ i ∧ i < (H : ℤ) ∧ 0 ≤ j ∧ j < (W : ℤ) then a i.toNat j.toNat
  else cval

/-- Order-1 `map_coordinates`: bilinear interpolation over the four
nearest grid cells at fractional coordinates (y, x), with boundary value
`cval`. -/
def bilinear (H W : ℕ) (a : ℕ → ℕ → ℚ) (cval : ℚ) (y x : ℚ) : ℚ :=
  (1 - Int.fract y) *
      ((1 - Int.fract x) * getPix H W a cval ⌊y⌋ ⌊x⌋ +
        Int.fract x * getPix H W a cval ⌊y⌋ (⌊x⌋ + 1)) +
    Int.fract y *
      ((1 - Int.fract x) * getPix H W a cval (⌊y⌋ + 1) ⌊x⌋ +
        Int.fract x * getPix H W a cval (⌊y⌋ + 1) (⌊x⌋ + 1))

/-- Array `safe_array`: the source grid with NaN cells replaced by 0 (source
lines 176-178). -/
def safeOf (grid : ℕ → ℕ → Option ℚ) : ℕ → ℕ → ℚ :=
  fun i j => (grid i j).getD 0

/-- Mask `nan_mask.astype(np.float32)`: 1 where the source cell is NaN, else 0
(source lines 176, 184). -/
def nanIndicator (grid : ℕ → ℕ → Option ℚ) : ℕ → ℕ → ℚ :=
  fun i j => if grid i j = none then 1 else 0

/-- The NaN-handling core of `reproject_to_mercator` (source lines
174-187) for one output pixel: the value raster is sampled bilinearly
from the NaN→0 array with boundary value 0, the 0/1 NaN mask is sampled
with the same bilinear scheme with boundary value 1, and the pixel is NaN
(`none`) exactly when the interpolated mask exceeds 0.5.  The fractional
source coordinates (y, x) of the output pixel — produced upstream by the
transcendental inverse-Mercator map of source lines 157-172 — are taken
as parameters. -/
def reproject_to_mercator_pixel (H W : ℕ) (grid : ℕ → ℕ → Option ℚ)
    (y x : ℚ) : Option ℚ :=
  if bilinear H W (nanIndicator grid) 1 y x > 1/2 then none
  else some (bilinear H W (safeOf grid) 0 y x)

/-- The spec's synthetic 4×4 grid with one NaN row (row 1). -/
def grid44 : ℕ → ℕ → Option ℚ :=
  fun i _ => if i = 1 then none else some ((i : ℚ) + 1)

/-- C2: in the Mercator Reprojector, for every output pixel, NaN source
cells are replaced by 0 before value interpolation, a parallel 0/1 mask
(1 where the source was NaN, boundary value 1 outside the frame) is
interpolated with the same bilinear scheme, and the output pixel is NaN
exactly when its interpolated mask value exceeds 0.5, overriding the
interpolated numeric value; in particular, for the synthetic 4×4 input
`grid44` with one NaN row, no output pixel whose interpolated mask
exceeds 0.5 (majority-overlapping source cells NaN) reports a non-NaN
value. -/
theorem C2_reprojector_nan_mask (H W : ℕ) (grid : ℕ → ℕ → Option ℚ)
    (y x : ℚ) :
    (reproject_to_mercator_pixel H W grid y x = none ↔
      bilinear H W (nanIndicator grid) 1 y x > 1/2) ∧
    (bilinear H W (nanIndicator grid) 1 y x ≤ 1/2 →
      reproject_to_mercator_pixel H W grid y x =
        some (bilinear H W (safeOf grid) 0 y x)) ∧
    (∀ i j, grid i j = none → safeOf grid i j = 0) ∧
    (bilinear 4 4 (nanIndicator grid44) 1 y x > 1/2 →
      reproject_to_mercator_pixel 4 4 grid44 y x = none) := by
  refine ⟨?_, ?_, ?_, ?_⟩
  · unfold reproject_to_mercator_pixel
    constructor
    · intro hnone
      by_contra hle
      rw [if_neg hle] at hnone
      exact absurd hnone (by simp)
    · intro hgt
      rw [if_pos hgt]
  · intro hle
    unfold reproject_to_mercator_pixel
    rw [if_neg (not_lt.mpr hle)]
  · intro i j hij
    unfold safeOf
    rw [hij]
    rfl
  · intro hgt
    unfold reproject_to_mercator_pixel
    rw [if_pos hgt]

/-- C2 witness: on the synthetic 4×4 grid, the pixel sampled at source
coordinates (1, 0) — inside the NaN row — is NaN, and the pixel sampled
at (3, 0) carries the interpolated value. -/
theorem C2_witness :
    (reproject_to_mercator_pixel 4 4 grid44 1 0 = none ↔
      bilinear 4 4 (nanIndicator grid44) 1 1 0 > 1/2) ∧
    reproject_to_mercator_pixel 4 4 grid44 3 0 =
      some (bilinear 4 4 (safeOf grid44) 0 3 0) ∧
    safeOf grid44 1 0 = 0 ∧
    reproject_to_mercator_pixel 4 4 grid44 1 0 = none :=
  ⟨(C2_reprojector_nan_mask 4 4 grid44 1 0).1,
   (C2_reprojector_nan_mask 4 4 grid44 3 0).2.1 (by
      have h3 : (Int.toNat 3 : ℕ) = 3 := rfl
      have h4 : (Int.toNat 4 : ℕ) = 4 := rfl
      norm_num [bilinear, getPix, nanIndicator, grid44, Int.fract, h3, h4,
        Option.some_ne_none]),
   (C2_reprojector_nan_mask 4 4 grid44 1 0).2.2.1 1 0 (by simp [grid44]),
   (C2_reprojector_nan_mask 4 4 grid44 1 0).2.2.2 (by
      have h1 : (Int.toNat 1 : ℕ) = 1 := rfl
      have h2 : (Int.toNat 2 : ℕ) = 2 := rfl
      norm_num [bilinear, getPix, nanIndicator, grid44, Int.fract, h1, h2])⟩
